import Mathlib

/-!
Shallow embedding of the data-normalization and schedule-conflict engine of
the coursematch application (src/App.js), together with theorems checking the
natural-language specification against it.

Modelling conventions:
* Spreadsheet-row fields are modelled as Option String (none = a missing cell,
  i.e. JS undefined).  JS truthiness on such a value: none and some "" are
  falsy, everything else truthy.
* JS numbers produced by parseFloat are modelled as JNum: either nan or an
  exact rational.  parseFloat itself is modelled for decimal literals (an
  optional sign, integer digits, an optional fractional part), which covers
  every numeric shape the application reads.
* JS objects used as insertion-ordered string-keyed maps are modelled as
  association lists in insertion order.
* Array.prototype.sort (guaranteed stable since ES2019) is modelled as a
  stable insertion sort parameterised by the JS comparator.
-/

namespace CourseMatch

/-- JS truthiness of an optional string field: undefined and "" are falsy. -/
def truthy : Option String → Bool
  | none => false
  | some s => s != ""

/-- JS String.prototype.trim, modelled on the character list. -/
def trimChars (l : List Char) : List Char :=
  ((l.dropWhile Char.isWhitespace).reverse.dropWhile Char.isWhitespace).reverse

/-- JS String.prototype.trim. -/
def jsTrim (s : String) : String :=
  String.mk (trimChars s.data)

/-- JS String.prototype.split with a one-character separator, on the
character list: "".split(c) is [""], separators at the ends produce empty
parts. -/
def splitChar (c : Char) : List Char → List (List Char)
  | [] => [[]]
  | x :: t =>
    let r := splitChar c t
    if x == c then [] :: r
    else
      match r with
      | h :: t2 => (x :: h) :: t2
      | [] => [[x]]

/-- JS String.prototype.split with a one-character separator. -/
def jsSplit (s : String) (c : Char) : List String :=
  (splitChar c s.data).map String.mk

/-- JS (x || ""): the string itself when truthy, otherwise "". -/
def orEmpty : Option String → String
  | none => ""
  | some s => s

/-- ASCII letter, as matched by the regex class [A-Z] with the i flag. -/
def isAsciiLetter (c : Char) : Bool :=
  ('A' ≤ c && c ≤ 'Z') || ('a' ≤ c && c ≤ 'z')

/-- Word character, as matched by the regex class \w. -/
def isWordChar (c : Char) : Bool :=
  isAsciiLetter c || c.isDigit || c == '_'

/-- Alphanumeric character, kept by the replace(/[^0-9A-Za-z]/g, '') cleanup. -/
def isAlphanum (c : Char) : Bool :=
  isAsciiLetter c || c.isDigit

/-- Decimal value of a digit string, as computed by JS Number on digit runs. -/
def digitsToNat (ds : List Char) : Nat :=
  ds.foldl (fun n c => n * 10 + (c.toNat - 48)) 0

/-- A JS number that is either NaN or an exact rational. -/
inductive JNum where
  | nan : JNum
  | val : ℚ → JNum
deriving DecidableEq, Repr

/-- Decimal value of a digit list read as a fraction (digits after the point). -/
def fracVal (ds : List Char) : ℚ :=
  (digitsToNat ds : ℚ) / ((10 : ℚ) ^ ds.length)

/-- Parse a decimal literal (optional sign, digits, optional point and digits)
at the head of the list, returning its value and the unconsumed remainder;
none when no digit is found.  This models the numeric prefix accepted by JS
parseFloat on the decimal strings the application reads. -/
def parseDecCore (cs : List Char) : Option (ℚ × List Char) :=
  let signed : ℚ × List Char :=
    match cs with
    | '-' :: t => (-1, t)
    | '+' :: t => (1, t)
    | _ => (1, cs)
  let sign := signed.1
  let cs1 := signed.2
  let ip := cs1.takeWhile Char.isDigit
  let cs2 := cs1.drop ip.length
  match cs2 with
  | '.' :: cs3 =>
    let fp := cs3.takeWhile Char.isDigit
    if ip.isEmpty && fp.isEmpty then none
    else some (sign * ((digitsToNat ip : ℚ) + fracVal fp), cs3.drop fp.length)
  | _ => if ip.isEmpty then none else some (sign * (digitsToNat ip : ℚ), cs2)

/-- JS parseFloat on a string: skip leading whitespace, read a decimal prefix,
NaN when none exists. -/
def parseFloatStr (s : String) : JNum :=
  match parseDecCore (s.data.dropWhile Char.isWhitespace) with
  | some r => JNum.val r.1
  | none => JNum.nan

/-- JS ToNumber on a string (used by the relational operator on mixed
operands): whitespace-only is 0, otherwise the whole string must be a decimal
literal, otherwise NaN. -/
def jsStringToNumber (s : String) : JNum :=
  let t2 := trimChars s.data
  if t2.isEmpty then JNum.val 0
  else
    match parseDecCore t2 with
    | some (q, []) => JNum.val q
    | _ => JNum.nan

/-- JS parseFloat applied to a possibly-missing cell: parseFloat(undefined)
is NaN. -/
def parseFloatOpt : Option String → JNum
  | none => JNum.nan
  | some s => parseFloatStr s

/-- JS (n || 0) on a parsed number: NaN and 0 are falsy and give the default. -/
def jnumOr (n : JNum) (d : ℚ) : ℚ :=
  match n with
  | JNum.nan => d
  | JNum.val q => if q = 0 then d else q

/-- The rating fields of the catalog builder:
field ? parseFloat(field) : null. -/
def ratingOf (field : Option String) : Option JNum :=
  if truthy field then some (parseFloatOpt field) else none

/-- One attempt of the regex ([A-Z]{4})[- ]?([0-9]{4}) (i flag) at the head of
the character list: four letters, an optional hyphen or space separator, four
digits.  The optional separator is tried greedily first, as the regex engine
does. -/
def matchDeptNum : List Char → Option (List Char × List Char)
  | a :: b :: c :: d :: e :: rest2 =>
    if [a, b, c, d].all isAsciiLetter then
      if (e == '-' || e == ' ') && (rest2.take 4).length == 4
          && (rest2.take 4).all Char.isDigit then
        some ([a, b, c, d], rest2.take 4)
      else if ((e :: rest2).take 4).length == 4
          && ((e :: rest2).take 4).all Char.isDigit then
        some ([a, b, c, d], (e :: rest2).take 4)
      else none
    else none
  | _ => none

/-- Leftmost-match search of the department/number regex over the string. -/
def searchDeptNum : List Char → Option (List Char × List Char)
  | [] => none
  | c :: t =>
    match matchDeptNum (c :: t) with
    | some r => some r
    | none => searchDeptNum t

/-- The cleanup tier of the normalizer: strip non-alphanumerics, uppercase. -/
def cleanAlnum (s : String) : String :=
  String.mk ((s.data.filter isAlphanum).map Char.toUpper)

/-- getBaseCourseCode from src/App.js: falsy input gives "", a regex match
gives uppercase DEPT-NNNN, otherwise the cleaned string is split by length. -/
def getBaseCourseCode (raw : Option String) : String :=
  match raw with
  | none => ""
  | some s =>
    if s == "" then ""
    else
      match searchDeptNum s.data with
      | some (d, n) => String.mk (d.map Char.toUpper) ++ "-" ++ String.mk n
      | none =>
        let str := cleanAlnum s
        if str.length == 8 then
          String.mk (str.data.take 4) ++ "-" ++ String.mk (str.data.drop 4)
        else if str.length == 7 then
          String.mk (str.data.take 4) ++ "-" ++ String.mk (str.data.drop 3)
        else str

/-- getLastName from src/App.js. -/
def getLastName (fullName lastNameOnly : Option String) : String :=
  if truthy lastNameOnly then orEmpty lastNameOnly
  else
    match fullName with
    | none => ""
    | some s =>
      if jsTrim s == "" then ""
      else
        let trimmedName := jsTrim s
        if trimmedName.data.contains ',' then jsTrim ((jsSplit trimmedName ',').getD 0 "")
        else (jsSplit trimmedName ' ').getLastD ""

/-- Per-row instructor record pushed by the catalog builder. -/
structure Instructor where
  name : String
  Course_Quality : Option JNum
  Instructor_Quality : Option JNum
  Difficulty : Option JNum
  Work_Required : Option JNum
deriving DecidableEq, Repr

/-- An element of the selected-sections list (a section spread together with
its course code, instructor text, price and conflict flag). -/
structure SelSection where
  Session_ID : String
  Meetings : String
  Days : Option String
  Time : Option String
  Term : Option String
  Credits : Option String
  instructors : List Instructor
  Course_Code : String
  Instructor : String
  Price : ℚ
  isConflicting : Bool
deriving DecidableEq, Repr

/-- Default section used to model JS array indexing (indices are always in
bounds where it is used). -/
def dfltSection : SelSection :=
  { Session_ID := "", Meetings := "", Days := none, Time := none, Term := none
    Credits := none, instructors := [], Course_Code := "", Instructor := ""
    Price := 0, isConflicting := false }

/-- Leftmost-match attempt of the regex (\d+:\d+)(\w+) at the head of the
list, with the backtracking JS performs: when no word character follows the
minute digits, the minute run gives one character back to \w+.  Returns
(hour digits, minute digits, period). -/
def matchClockAt (l : List Char) : Option (List Char × List Char × List Char) :=
  let h := l.takeWhile Char.isDigit
  if h.isEmpty then none
  else
    match l.drop h.length with
    | ':' :: rest =>
      let m := rest.takeWhile Char.isDigit
      if m.isEmpty then none
      else
        let w := (rest.drop m.length).takeWhile isWordChar
        if !w.isEmpty then some (h, m, w)
        else if 2 ≤ m.length then some (h, m.take (m.length - 1), m.drop (m.length - 1))
        else none
    | _ => none

/-- Leftmost-match search of the clock regex over the string. -/
def searchClock : List Char → Option (List Char × List Char × List Char)
  | [] => none
  | c :: t =>
    match matchClockAt (c :: t) with
    | some r => some r
    | none => searchClock t

/-- Does the period group start with the given letter, case-insensitively
(period.toLowerCase().startsWith(c))? -/
def periodStarts (w : List Char) (c : Char) : Bool :=
  match w with
  | [] => false
  | x :: _ => x.toLower == c

/-- convertToMinutes from checkConflict in src/App.js: minutes since midnight
with 12-hour to 24-hour conversion; 0 when the clock regex does not match. -/
def convertToMinutes (t : String) : Nat :=
  match searchClock t.data with
  | none => 0
  | some (h, m, w) =>
    let hours0 := digitsToNat h
    let minutes := digitsToNat m
    let hours :=
      if periodStarts w 'p' && hours0 != 12 then hours0 + 12
      else if periodStarts w 'a' && hours0 == 12 then 0
      else hours0
    hours * 60 + minutes

/-- parseTime from checkConflict in src/App.js: (start, end) in minutes;
(0, 0) when the string is falsy or has no hyphen. -/
def parseTime (timeStr : String) : Nat × Nat :=
  if timeStr == "" || !(timeStr.data.contains '-') then (0, 0)
  else
    let parts := jsSplit timeStr '-'
    (convertToMinutes (parts.getD 0 ""), convertToMinutes (parts.getD 1 ""))

/-- checkConflict from src/App.js. -/
def checkConflict (sectionA sectionB : SelSection) : Bool :=
  if !truthy sectionA.Days || !truthy sectionA.Time
      || !truthy sectionB.Days || !truthy sectionB.Time then false
  else
    let daysA := (orEmpty sectionA.Days).data
    let daysB := (orEmpty sectionB.Days).data
    let dayConflict := daysA.any (fun day => daysB.contains day)
    if !dayConflict then false
    else
      let timeA := parseTime (orEmpty sectionA.Time)
      let timeB := parseTime (orEmpty sectionB.Time)
      decide (timeA.1 < timeB.2) && decide (timeB.1 < timeA.2)

/-! ### Catalog builder (the csvData.reduce in src/App.js) -/

/-- A raw listing row, with every cell modelled as a possibly-missing string. -/
structure RawRow where
  Course_ID : Option String
  Title : Option String
  base_course_quality : Option String
  base_instructor_quality : Option String
  base_difficulty : Option String
  base_work_required : Option String
  Section_ID : Option String
  Meetings_Days : Option String
  Meetings_Time : Option String
  Term : Option String
  CU : Option String
  Instructor : Option String
  Instructor_last : Option String
  review_rCourseQuality : Option String
  review_rInstructorQuality : Option String
  review_rDifficulty : Option String
  review_rWorkRequired : Option String
deriving DecidableEq, Repr

/-- A raw price row. -/
structure PriceRow where
  Course_ID : Option String
  Average_Price : Option String
deriving DecidableEq, Repr

/-- A section record inside a course, before aggregation. -/
structure Sect where
  Session_ID : String
  Meetings : String
  Days : Option String
  Time : Option String
  Term : Option String
  Credits : Option String
  instructors : List Instructor
deriving DecidableEq, Repr

/-- A course record inside the course map; sections is the JS object keyed by
section id, modelled as an association list in insertion order. -/
structure CourseB where
  Course_Code : String
  Title : Option String
  course_rating : Option JNum
  instructor_rating : Option JNum
  difficulty_rating : Option JNum
  work_rating : Option JNum
  Average_Price : ℚ
  sections : List (String × Sect)
deriving DecidableEq, Repr

/-- In-place update of the value at a key of a JS-object association list
(key positions are unchanged, as for JS property assignment). -/
def updateKey (m : List (String × α)) (k : String) (f : α → α) : List (String × α) :=
  m.map (fun p => if p.1 == k then (p.1, f p.2) else p)

/-- The value stored in the price map for a row:
parseFloat(r.Average_Price) || 0. -/
def priceEntryVal (r : PriceRow) : ℚ :=
  jnumOr (parseFloatOpt r.Average_Price) 0

/-- The priceMap reduce in src/App.js. -/
def buildPriceMap (rows : List PriceRow) : List (String × ℚ) :=
  rows.foldl
    (fun acc r =>
      let code := getBaseCourseCode r.Course_ID
      if code == "" then acc
      else
        match acc.lookup code with
        | some _ => updateKey acc code (fun _ => priceEntryVal r)
        | none => acc ++ [(code, priceEntryVal r)])
    []

/-- JS (priceMap[code] || 0): 0 when the key is missing or holds 0. -/
def priceOr (o : Option ℚ) : ℚ :=
  match o with
  | none => 0
  | some q => if q = 0 then 0 else q

/-- The course record created on first sight of a code. -/
def mkCourse (pm : List (String × ℚ)) (code : String) (row : RawRow) : CourseB :=
  { Course_Code := code
    Title := row.Title
    course_rating := ratingOf row.base_course_quality
    instructor_rating := ratingOf row.base_instructor_quality
    difficulty_rating := ratingOf row.base_difficulty
    work_rating := ratingOf row.base_work_required
    Average_Price := priceOr (pm.lookup code)
    sections := [] }

/-- The instructor record pushed for a row. -/
def mkInstructor (row : RawRow) : Instructor :=
  { name := getLastName row.Instructor row.Instructor_last
    Course_Quality := ratingOf row.review_rCourseQuality
    Instructor_Quality := ratingOf row.review_rInstructorQuality
    Difficulty := ratingOf row.review_rDifficulty
    Work_Required := ratingOf row.review_rWorkRequired }

/-- The section record created on first sight of a section id. -/
def mkSect (sid : String) (row : RawRow) : Sect :=
  { Session_ID := sid
    Meetings := jsTrim (orEmpty row.Meetings_Days ++ " " ++ orEmpty row.Meetings_Time)
    Days := row.Meetings_Days
    Time := row.Meetings_Time
    Term := row.Term
    Credits := row.CU
    instructors := [] }

/-- One step of the courseMap reduce in src/App.js. -/
def processRow (pm : List (String × ℚ)) (acc : List (String × CourseB))
    (row : RawRow) : List (String × CourseB) :=
  let code := getBaseCourseCode row.Course_ID
  if code == "" then acc
  else
    let acc1 :=
      match acc.lookup code with
      | some _ => acc
      | none => acc ++ [(code, mkCourse pm code row)]
    if truthy row.Section_ID then
      let sid := orEmpty row.Section_ID
      updateKey acc1 code (fun c =>
        let secs1 :=
          match c.sections.lookup sid with
          | some _ => c.sections
          | none => c.sections ++ [(sid, mkSect sid row)]
        { c with
          sections := updateKey secs1 sid (fun s =>
            { s with instructors := s.instructors ++ [mkInstructor row] }) })
    else acc1

/-- The whole courseMap reduce over the listing rows. -/
def buildCourseMap (pm : List (String × ℚ)) (rows : List RawRow) :
    List (String × CourseB) :=
  rows.foldl (processRow pm) []

/-! ### Selected sections, conflict flags, and the price total -/

/-- A finalized course as consumed by the selection and sorting views
(sections converted to an array, Terms/Credits aggregated to strings). -/
structure Course where
  Course_Code : String
  Title : Option String
  course_rating : Option JNum
  instructor_rating : Option JNum
  difficulty_rating : Option JNum
  work_rating : Option JNum
  Average_Price : ℚ
  sections : List Sect
  Terms : String
  Credits : String
deriving DecidableEq, Repr

/-- The instructor text shown for a selected section. -/
def instructorText (s : Sect) : String :=
  if 1 < s.instructors.length then "Multiple Instructors"
  else
    match s.instructors with
    | [i] => i.name
    | _ => "N/A"

/-- The record pushed onto the selection list for a selected section
(the section spread plus course code, instructor text and price; the
isConflicting flag starts false as in the checkedList map). -/
def selRecord (c : Course) (s : Sect) : SelSection :=
  { Session_ID := s.Session_ID, Meetings := s.Meetings, Days := s.Days
    Time := s.Time, Term := s.Term, Credits := s.Credits
    instructors := s.instructors, Course_Code := c.Course_Code
    Instructor := instructorText s, Price := c.Average_Price
    isConflicting := false }

/-- The selection list before conflict marking: every selected section of
every course, in course order then section order. -/
def selectedBase (courses : List Course) (sel : String → Bool) : List SelSection :=
  courses.flatMap fun c =>
    (c.sections.filter fun s => sel s.Session_ID).map (selRecord c)

/-- All index pairs (i, j) with i < j < n, in the order the nested for loops
of the conflict marking enumerate them. -/
def allPairs (n : Nat) : List (Nat × Nat) :=
  (List.range n).flatMap fun i =>
    ((List.range n).filter fun j => i < j).map fun j => (i, j)

/-- JS array indexing into the selection list. -/
def nthSel (l : List SelSection) (k : Nat) : SelSection :=
  l.getD k dfltSection

/-- The conflict flag the double loop leaves on index k: both endpoints of
every conflicting pair are flagged. -/
def conflictFlag (l : List SelSection) (k : Nat) : Bool :=
  ((allPairs l.length).foldl
    (fun f p =>
      if checkConflict (nthSel l p.1) (nthSel l p.2) then
        fun k2 => f k2 || k2 == p.1 || k2 == p.2
      else f)
    (fun _ => false)) k

/-- The checkedList after the double loop: each element with its final
conflict flag. -/
def markConflicts (l : List SelSection) : List SelSection :=
  (List.range l.length).map fun i =>
    { nthSel l i with isConflicting := conflictFlag l i }

/-- selectedList from src/App.js. -/
def selectedList (courses : List Course) (sel : String → Bool) : List SelSection :=
  markConflicts (selectedBase courses sel)

/-- The reduce computing the price total over a checked list. -/
def totalOf (l : List SelSection) : ℚ :=
  l.foldl (fun sum s => if s.isConflicting then sum else sum + s.Price) 0

/-- total from src/App.js. -/
def totalPrice (courses : List Course) (sel : String → Bool) : ℚ :=
  totalOf (selectedList courses sel)

/-- A section with its conflict flag cleared (used to state that conflict
marking changes nothing but the flag). -/
def clearFlag (s : SelSection) : SelSection :=
  { s with isConflicting := false }

/-! ### Calendar projection -/

/-- The calendar scope selector. -/
inductive CalView where
  | Overall : CalView
  | Q1 : CalView
  | Q2 : CalView
deriving DecidableEq, Repr

/-- termsToShow from calendarEvents in src/App.js. -/
def termsToShow : CalView → List String
  | CalView.Overall => ["Full", "Q1", "Q2"]
  | CalView.Q1 => ["Full", "Q1"]
  | CalView.Q2 => ["Full", "Q2"]

/-- termColors[term] || '#808080'. -/
def termColor (t : Option String) : String :=
  match t with
  | some "Full" => "#3788d8"
  | some "Q1" => "#4caf50"
  | some "Q2" => "#ff9800"
  | _ => "#808080"

/-- termsToShow.includes(section.Term): an absent term is never included. -/
def termIncluded (view : CalView) (t : Option String) : Bool :=
  match t with
  | some s => (termsToShow view).contains s
  | none => false

/-- The filter predicate of calendarEvents. -/
def eligibleSection (view : CalView) (s : SelSection) : Bool :=
  truthy s.Time && truthy s.Days && !s.isConflicting && termIncluded view s.Term

/-- String(n).padStart(2, '0') for the hour field. -/
def pad2 (n : Nat) : String :=
  if n < 10 then "0" ++ toString n else toString n

/-- formatTime from calendarEvents in src/App.js: 24-hour HH:MM:00 using the
clock regex; the minute group is inserted verbatim; '00:00' on no match. -/
def formatTime (timeStr : String) : String :=
  match searchClock timeStr.data with
  | none => "00:00"
  | some (h, m, w) =>
    let hours0 := digitsToNat h
    let hours :=
      if periodStarts w 'p' && hours0 != 12 then hours0 + 12
      else if periodStarts w 'a' && hours0 == 12 then 0
      else hours0
    pad2 hours ++ ":" ++ String.mk m ++ ":00"

/-- dayMap from calendarEvents: weekday letters to ordinals, weekend or
unknown letters to nothing. -/
def dayNum (c : Char) : Option Nat :=
  if c == 'M' then some 1
  else if c == 'T' then some 2
  else if c == 'W' then some 3
  else if c == 'R' then some 4
  else if c == 'F' then some 5
  else none

/-- A calendar event object. -/
structure CalEvent where
  title : String
  daysOfWeek : List Nat
  startTime : String
  endTime : String
  allDay : Bool
  color : String
deriving DecidableEq, Repr

/-- The flatMap body of calendarEvents: the events a section that passed the
filter contributes (none when its time does not split into two non-empty
parts, or no day letter is a weekday letter). -/
def sectionEvents (s : SelSection) : List CalEvent :=
  let parts := jsSplit (orEmpty s.Time) '-'
  let startT := parts.getD 0 ""
  let endT := parts.getD 1 ""
  if startT == "" || endT == "" then []
  else
    let days := (orEmpty s.Days).data.filterMap dayNum
    if days.isEmpty then []
    else
      [{ title := s.Course_Code, daysOfWeek := days
         startTime := formatTime startT, endTime := formatTime endT
         allDay := false, color := termColor s.Term }]

/-- calendarEvents from src/App.js. -/
def calendarEvents (view : CalView) (selList : List SelSection) : List CalEvent :=
  (selList.filter (eligibleSection view)).flatMap sectionEvents

/-- The events a single section of the selection list contributes. -/
def sectionEventsIf (view : CalView) (s : SelSection) : List CalEvent :=
  if eligibleSection view s then sectionEvents s else []

/-! ### Sorting of the filtered course list -/

/-- The sortable column keys of the course table. -/
inductive SortKey where
  | courseCode : SortKey
  | title : SortKey
  | averagePrice : SortKey
  | terms : SortKey
  | credits : SortKey
  | courseRating : SortKey
  | instructorRating : SortKey
  | difficultyRating : SortKey
  | workRating : SortKey
deriving DecidableEq, Repr

/-- The sort direction. -/
inductive SortDir where
  | ascending : SortDir
  | descending : SortDir
deriving DecidableEq, Repr

/-- A JS value as it appears in a sortable course field. -/
inductive JSVal where
  | vundef : JSVal
  | vnull : JSVal
  | vnan : JSVal
  | vnum : ℚ → JSVal
  | vstr : String → JSVal
deriving DecidableEq, Repr

/-- A possibly-missing string field as a JS value. -/
def jvalOfOptStr : Option String → JSVal
  | none => JSVal.vundef
  | some s => JSVal.vstr s

/-- A rating field as a JS value. -/
def jvalOfRating : Option JNum → JSVal
  | none => JSVal.vnull
  | some JNum.nan => JSVal.vnan
  | some (JNum.val q) => JSVal.vnum q

/-- course[sortConfig.key]. -/
def getField (c : Course) : SortKey → JSVal
  | SortKey.courseCode => JSVal.vstr c.Course_Code
  | SortKey.title => jvalOfOptStr c.Title
  | SortKey.averagePrice => JSVal.vnum c.Average_Price
  | SortKey.terms => JSVal.vstr c.Terms
  | SortKey.credits => JSVal.vstr c.Credits
  | SortKey.courseRating => jvalOfRating c.course_rating
  | SortKey.instructorRating => jvalOfRating c.instructor_rating
  | SortKey.difficultyRating => jvalOfRating c.difficulty_rating
  | SortKey.workRating => jvalOfRating c.work_rating

/-- JS ToNumber of a sortable value (for the relational operator). -/
def toNumberJ : JSVal → JNum
  | JSVal.vundef => JNum.nan
  | JSVal.vnull => JNum.val 0
  | JSVal.vnan => JNum.nan
  | JSVal.vnum q => JNum.val q
  | JSVal.vstr s => jsStringToNumber s

/-- Lexicographic code-unit comparison of two strings, as the JS relational
operator performs on string operands. -/
def lexLt : List Char → List Char → Bool
  | [], [] => false
  | [], _ :: _ => true
  | _ :: _, [] => false
  | a :: s, b :: t =>
    if a.toNat < b.toNat then true
    else if b.toNat < a.toNat then false
    else lexLt s t

/-- The JS relational operator a < b on sortable values: lexicographic when
both are strings, otherwise numeric after ToNumber, false whenever NaN is
involved. -/
def jsLt (a b : JSVal) : Bool :=
  match a, b with
  | JSVal.vstr s, JSVal.vstr t => lexLt s.data t.data
  | _, _ =>
    match toNumberJ a, toNumberJ b with
    | JNum.val x, JNum.val y => decide (x < y)
    | _, _ => false

/-- The comparator passed to arr.sort in sortedCourses. -/
def cmpCourses (key : SortKey) (dir : SortDir) (a b : Course) : Int :=
  let aVal := getField a key
  let bVal := getField b key
  if jsLt aVal bVal then
    match dir with
    | SortDir.ascending => -1
    | SortDir.descending => 1
  else if jsLt bVal aVal then
    match dir with
    | SortDir.ascending => 1
    | SortDir.descending => -1
  else 0

/-- Stable insertion of x into a sorted list: x stops at the first element it
does not strictly follow, so it lands before every element tied with it that
was originally later. -/
def insertStable (c : α → α → Int) (x : α) : List α → List α
  | [] => [x]
  | y :: ys => if c x y ≤ 0 then x :: y :: ys else y :: insertStable c x ys

/-- The stable sort modelling Array.prototype.sort (stable per ES2019). -/
def jsSort (c : α → α → Int) : List α → List α
  | [] => []
  | a :: l => insertStable c a (jsSort c l)

/-- sortedCourses from src/App.js: a copy of the filtered list, stably sorted
by the comparator (the input list itself is a value and is untouched). -/
def sortCourses (key : SortKey) (dir : SortDir) (l : List Course) : List Course :=
  jsSort (cmpCourses key dir) l

/-- x occurs somewhere strictly before y in the list. -/
def Before (x y : α) (l : List α) : Prop :=
  ∃ l1 l2 l3, l = l1 ++ x :: l2 ++ y :: l3

/-! ## Theorems -/

/-- Characterization of checkConflict: truthiness guard, a shared day
letter, and the strict half-open overlap of the parsed time ranges. -/
theorem checkConflict_iff (A B : SelSection) :
    checkConflict A B = true ↔
      truthy A.Days = true ∧ truthy A.Time = true ∧
      truthy B.Days = true ∧ truthy B.Time = true ∧
      (∃ c : Char, c ∈ (orEmpty A.Days).data ∧ c ∈ (orEmpty B.Days).data) ∧
      (parseTime (orEmpty A.Time)).1 < (parseTime (orEmpty B.Time)).2 ∧
      (parseTime (orEmpty B.Time)).1 < (parseTime (orEmpty A.Time)).2 := by
  unfold checkConflict
  cases hAD : truthy A.Days <;> cases hAT : truthy A.Time <;>
    cases hBD : truthy B.Days <;> cases hBT : truthy B.Time <;>
      simp only [Bool.not_true, Bool.not_false, Bool.true_or, Bool.or_true,
        Bool.false_or, Bool.or_false, if_true, if_false, false_and, and_false,
        true_and, and_true] <;>
    simp [List.any_eq_true, and_assoc]

/-- C1: for every pair of sections, checkConflict returns true iff both have
present (truthy) days and time, they share at least one day letter, and the
parsed time ranges overlap under the strict half-open test
startA < endB and startB < endA; so exactly touching endpoints are not a
conflict, and an absent days or time field on either side gives false. -/
theorem checkConflict_spec (A B : SelSection) :
    checkConflict A B = true ↔
      truthy A.Days = true ∧ truthy A.Time = true ∧
      truthy B.Days = true ∧ truthy B.Time = true ∧
      (∃ c : Char, c ∈ (orEmpty A.Days).data ∧ c ∈ (orEmpty B.Days).data) ∧
      (parseTime (orEmpty A.Time)).1 < (parseTime (orEmpty B.Time)).2 ∧
      (parseTime (orEmpty B.Time)).1 < (parseTime (orEmpty A.Time)).2 :=
  checkConflict_iff A B

/-- splitChar never returns an empty list of parts. -/
theorem splitChar_ne_nil (c : Char) (l : List Char) : splitChar c l ≠ [] := by
  induction l with
  | nil => simp [splitChar]
  | cons x t ih =>
    simp only [splitChar]
    by_cases h : (x == c) = true
    · simp [h]
    · simp only [h]
      cases hr : splitChar c t with
      | nil => exact absurd hr ih
      | cons a b => simp [Bool.false_eq_true, if_false]

/-- The first split part is the run of characters before the first
separator. -/
theorem splitChar_head (c : Char) (l : List Char) :
    (splitChar c l).getD 0 [] = l.takeWhile (fun x => x != c) := by
  induction l with
  | nil => simp [splitChar]
  | cons x t ih =>
    by_cases h : (x == c) = true
    · simp [splitChar, List.takeWhile, h, bne]
    · cases hr : splitChar c t with
      | nil => exact absurd hr (splitChar_ne_nil c t)
      | cons a b =>
        rw [hr] at ih
        simp only [List.getD_cons_zero] at ih
        simp [splitChar, List.takeWhile, h, hr, bne, ih]

/-- Head of a mapped list through getD, for a non-empty list. -/
theorem getD_zero_map (f : α → β) (l : List α) (d : β) (d2 : α) (h : l ≠ []) :
    (l.map f).getD 0 d = f (l.getD 0 d2) := by
  cases l with
  | nil => exact absurd rfl h
  | cons a t => rfl

/-- C9: the name resolver returns a non-empty override verbatim; with no
override, a missing or blank full name gives "", a trimmed name containing a
comma gives the trimmed segment before its first comma, and otherwise the
last token of the trimmed name split on single spaces; including the spec's
three examples. -/
theorem getLastName_spec :
    (∀ fn ov, truthy ov = true → getLastName fn ov = orEmpty ov) ∧
    (∀ ov, truthy ov = false → getLastName none ov = "") ∧
    (∀ s ov, truthy ov = false → jsTrim s = "" → getLastName (some s) ov = "") ∧
    (∀ s ov, truthy ov = false → jsTrim s ≠ "" →
      (jsTrim s).data.contains ',' = true →
      getLastName (some s) ov =
        jsTrim (String.mk ((jsTrim s).data.takeWhile (fun x => x != ',')))) ∧
    (∀ s ov, truthy ov = false → jsTrim s ≠ "" →
      (jsTrim s).data.contains ',' = false →
      getLastName (some s) ov = (jsSplit (jsTrim s) ' ').getLastD "") ∧
    getLastName (some "Smith, John") (some "") = "Smith" ∧
    getLastName (some "John Smith") (some "") = "Smith" ∧
    getLastName (some "John Smith") (some "Jones") = "Jones" := by
  refine ⟨?_, ?_, ?_, ?_, ?_, by decide, by decide, by decide⟩
  · intro fn ov h
    simp [getLastName, h]
  · intro ov h
    simp [getLastName, h]
  · intro s ov h hs
    simp [getLastName, h, hs]
  · intro s ov h hs hc
    simp only [getLastName, h, Bool.false_eq_true, if_false, beq_iff_eq, hs,
      if_true, hc]
    rw [jsSplit, getD_zero_map String.mk _ _ [] (splitChar_ne_nil ',' (jsTrim s).data),
      splitChar_head]
  · intro s ov h hs hc
    simp only [getLastName, h, Bool.false_eq_true, if_false, beq_iff_eq, hs,
      if_true, hc]

/-- Witness for C9 at concrete inputs (comma branch and last-token branch). -/
theorem getLastName_spec_witness :
    getLastName (some " Curie, Marie ") none = "Curie" ∧
    getLastName (some "Mary Shelley") none = "Shelley" := by
  constructor
  · have h := getLastName_spec.2.2.2.1 " Curie, Marie " none (by decide) (by decide)
      (by decide)
    rw [h]; decide
  · have h := getLastName_spec.2.2.2.2.1 "Mary Shelley" none (by decide) (by decide)
      (by decide)
    rw [h]; decide

/-- The spec-side pattern of the normalizer: the string contains four
letters, an optional hyphen or space, and four digits, contiguously. -/
def HasDeptNum (s : String) : Prop :=
  ∃ pre d sep n post, s.data = pre ++ d ++ sep ++ n ++ post ∧
    d.length = 4 ∧ (∀ c ∈ d, isAsciiLetter c = true) ∧
    (sep = [] ∨ sep = ['-'] ∨ sep = [' ']) ∧
    n.length = 4 ∧ (∀ c ∈ n, c.isDigit = true)

/-- A digit character is neither a hyphen nor a space. -/
theorem digit_ne_sep {c : Char} (h : c.isDigit = true) :
    (c == '-') = false ∧ (c == ' ') = false := by
  constructor <;>
  · by_contra hb
    rw [Bool.not_eq_false, beq_iff_eq] at hb
    subst hb
    exact absurd h (by decide)

/-- Soundness of one regex attempt: a match decomposes the list. -/
theorem matchDeptNum_sound {l d n : List Char}
    (h : matchDeptNum l = some (d, n)) :
    ∃ sep post, l = d ++ sep ++ n ++ post ∧ d.length = 4 ∧
      (∀ c ∈ d, isAsciiLetter c = true) ∧ (sep = [] ∨ sep = ['-'] ∨ sep = [' ']) ∧
      n.length = 4 ∧ (∀ c ∈ n, c.isDigit = true) := by
  rcases l with _ | ⟨a, _ | ⟨b, _ | ⟨c, _ | ⟨d4, _ | ⟨e, rest2⟩⟩⟩⟩⟩
  case nil => exact absurd h (by simp [matchDeptNum])
  case cons.nil => exact absurd h (by simp [matchDeptNum])
  case cons.cons.nil => exact absurd h (by simp [matchDeptNum])
  case cons.cons.cons.nil => exact absurd h (by simp [matchDeptNum])
  case cons.cons.cons.cons.nil => exact absurd h (by simp [matchDeptNum])
  case cons.cons.cons.cons.cons =>
    simp only [matchDeptNum] at h
    by_cases hlet : ([a, b, c, d4].all isAsciiLetter) = true
    case neg => rw [if_neg hlet] at h; cases h
    rw [if_pos hlet] at h
    rw [List.all_eq_true] at hlet
    by_cases hc1 : ((e == '-' || e == ' ') && (rest2.take 4).length == 4
        && (rest2.take 4).all Char.isDigit) = true
    · rw [if_pos hc1] at h
      injection h with h2
      rw [Prod.mk.injEq] at h2
      obtain ⟨hdq, hnq⟩ := h2
      subst hdq
      subst hnq
      rw [Bool.and_eq_true, Bool.and_eq_true, beq_iff_eq, List.all_eq_true] at hc1
      obtain ⟨⟨hsepb, hnlen⟩, hdig⟩ := hc1
      refine ⟨[e], rest2.drop 4, ?_, rfl, hlet, ?_, hnlen, hdig⟩
      · simp [List.take_append_drop]
      · rcases Bool.or_eq_true .. |>.mp hsepb with hs | hs
        · exact Or.inr (Or.inl (by rw [beq_iff_eq] at hs; rw [hs]))
        · exact Or.inr (Or.inr (by rw [beq_iff_eq] at hs; rw [hs]))
    · rw [if_neg hc1] at h
      by_cases hc2 : (((e :: rest2).take 4).length == 4
          && ((e :: rest2).take 4).all Char.isDigit) = true
      · rw [if_pos hc2] at h
        injection h with h2
        rw [Prod.mk.injEq] at h2
        obtain ⟨hdq, hnq⟩ := h2
        subst hdq
        subst hnq
        rw [Bool.and_eq_true, beq_iff_eq, List.all_eq_true] at hc2
        obtain ⟨hnlen, hdig⟩ := hc2
        refine ⟨[], (e :: rest2).drop 4, ?_, rfl, hlet, Or.inl rfl, hnlen, hdig⟩
        simp [List.take_append_drop]
      · rw [if_neg hc2] at h; cases h

/-- Completeness of one regex attempt at the start of a decomposed list. -/
theorem matchDeptNum_complete {d sep n : List Char} (post : List Char)
    (hd : d.length = 4) (hdl : ∀ c ∈ d, isAsciiLetter c = true)
    (hsep : sep = [] ∨ sep = ['-'] ∨ sep = [' '])
    (hn : n.length = 4) (hnd : ∀ c ∈ n, c.isDigit = true) :
    matchDeptNum (d ++ (sep ++ (n ++ post))) = some (d, n) := by
  rcases d with _ | ⟨d0, _ | ⟨d1, _ | ⟨d2, _ | ⟨d3, drest⟩⟩⟩⟩ <;> simp at hd
  subst hd
  rcases n with _ | ⟨n0, _ | ⟨n1, _ | ⟨n2, _ | ⟨n3, nrest⟩⟩⟩⟩ <;> simp at hn
  subst hn
  have hd0 : isAsciiLetter d0 = true := hdl d0 (by simp)
  have hd1 : isAsciiLetter d1 = true := hdl d1 (by simp)
  have hd2 : isAsciiLetter d2 = true := hdl d2 (by simp)
  have hd3 : isAsciiLetter d3 = true := hdl d3 (by simp)
  have hn0 : n0.isDigit = true := hnd n0 (by simp)
  have hn1 : n1.isDigit = true := hnd n1 (by simp)
  have hn2 : n2.isDigit = true := hnd n2 (by simp)
  have hn3 : n3.isDigit = true := hnd n3 (by simp)
  rcases hsep with hs | hs | hs <;> subst hs <;>
    simp [matchDeptNum, hd0, hd1, hd2, hd3, hn0, hn1, hn2, hn3,
      (digit_ne_sep hn0).1, (digit_ne_sep hn0).2]

/-- Soundness of the regex search over the whole string. -/
theorem searchDeptNum_sound {l d n : List Char}
    (h : searchDeptNum l = some (d, n)) :
    ∃ pre sep post, l = pre ++ d ++ sep ++ n ++ post ∧ d.length = 4 ∧
      (∀ c ∈ d, isAsciiLetter c = true) ∧ (sep = [] ∨ sep = ['-'] ∨ sep = [' ']) ∧
      n.length = 4 ∧ (∀ c ∈ n, c.isDigit = true) := by
  induction l with
  | nil => simp [searchDeptNum] at h
  | cons c t ih =>
    rw [searchDeptNum] at h
    cases hm : matchDeptNum (c :: t) with
    | some r =>
      rw [hm] at h
      injection h with h2
      subst h2
      obtain ⟨sep, post, hl, hrest⟩ := matchDeptNum_sound hm
      exact ⟨[], sep, post, by simpa using hl, hrest⟩
    | none =>
      rw [hm] at h
      obtain ⟨pre, sep, post, hl, hrest⟩ := ih h
      exact ⟨c :: pre, sep, post, by simp [hl], hrest⟩

/-- Completeness of the regex search: a match attempt succeeding at any
offset makes the search succeed. -/
theorem searchDeptNum_complete {pre rest : List Char}
    (h : (matchDeptNum rest).isSome = true) :
    (searchDeptNum (pre ++ rest)).isSome = true := by
  induction pre with
  | nil =>
    cases rest with
    | nil => simp [matchDeptNum] at h
    | cons c t =>
      rw [List.nil_append, searchDeptNum]
      cases hm : matchDeptNum (c :: t) with
      | some r => simp
      | none => rw [hm] at h; cases h
  | cons p ps ih =>
    rw [List.cons_append, searchDeptNum]
    cases hm : matchDeptNum (p :: (ps ++ rest)) with
    | some r => simp
    | none => exact ih

/-- A string is empty exactly when its character list is. -/
theorem string_eq_empty_iff {s : String} : s = "" ↔ s.data = [] := by
  constructor
  · intro h; subst h; rfl
  · intro h
    cases s with
    | mk d2 => simp only at h; rw [h]

/-- C4 (amended): the normalizer is tiered: when the input contains a
4-letter + 4-digit pattern with an optional hyphen or space separator
(case-insensitively), the result is the uppercased matched letters, a
hyphen, and the matched digits; otherwise the input is stripped to
alphanumerics and uppercased, an 8-character result splits as
[0:4]-[4:8], a 7-character result splits as [0:4]-[3:7] with a 1-character
overlap, and anything else is returned cleaned; missing or empty input
gives "".  (The spec's examples "CIS 1200" / "cis1200" / "CIS-1200" do not
reach the regex tier, and give "CIS1-1200"; see the counterexample.) -/
theorem getBaseCourseCode_tiers (s : String) :
    (HasDeptNum s →
      ∃ d n : List Char, d.length = 4 ∧ (∀ c ∈ d, isAsciiLetter c = true) ∧
        n.length = 4 ∧ (∀ c ∈ n, c.isDigit = true) ∧
        getBaseCourseCode (some s) =
          String.mk (d.map Char.toUpper) ++ "-" ++ String.mk n) ∧
    (¬ HasDeptNum s →
      getBaseCourseCode (some s) =
        (if (cleanAlnum s).length = 8 then
          String.mk ((cleanAlnum s).data.take 4) ++ "-" ++
            String.mk ((cleanAlnum s).data.drop 4)
        else if (cleanAlnum s).length = 7 then
          String.mk ((cleanAlnum s).data.take 4) ++ "-" ++
            String.mk ((cleanAlnum s).data.drop 3)
        else cleanAlnum s)) ∧
    getBaseCourseCode none = "" ∧ getBaseCourseCode (some "") = "" := by
  refine ⟨?_, ?_, rfl, rfl⟩
  · rintro ⟨pre, d, sep, n, post, hdec, hd, hdl, hsep, hn, hnd⟩
    have hm : matchDeptNum (d ++ (sep ++ (n ++ post))) = some (d, n) :=
      matchDeptNum_complete post hd hdl hsep hn hnd
    have hsearch : (searchDeptNum s.data).isSome = true := by
      have hassoc : s.data = pre ++ (d ++ (sep ++ (n ++ post))) := by
        rw [hdec]; simp [List.append_assoc]
      rw [hassoc]
      exact searchDeptNum_complete (by rw [hm]; rfl)
    obtain ⟨⟨d2, n2⟩, hfound⟩ := Option.isSome_iff_exists.mp hsearch
    obtain ⟨pre2, sep2, post2, hl2, hd2, hdl2, hsep2, hn2, hnd2⟩ :=
      searchDeptNum_sound hfound
    have hne : s ≠ "" := by
      intro he
      rw [string_eq_empty_iff] at he
      rw [he] at hl2
      have hlen := congrArg List.length hl2
      simp [hd2] at hlen
      omega
    refine ⟨d2, n2, hd2, hdl2, hn2, hnd2, ?_⟩
    simp only [getBaseCourseCode, beq_iff_eq, hne, if_false, hfound]
  · intro hno
    have hs : searchDeptNum s.data = none := by
      cases hsearch : searchDeptNum s.data with
      | none => rfl
      | some r =>
        obtain ⟨d, n⟩ := r
        obtain ⟨pre, sep, post, hl, hd, hdl, hsep, hn, hnd⟩ :=
          searchDeptNum_sound hsearch
        exact absurd ⟨pre, d, sep, n, post, hl, hd, hdl, hsep, hn, hnd⟩ hno
    by_cases he : s = ""
    · subst he; decide
    · simp only [getBaseCourseCode, beq_iff_eq, he, if_false, hs]

/-- Witness for C4: a string genuinely containing the 4-letter + 4-digit
pattern, with its explicit decomposition. -/
theorem getBaseCourseCode_tiers_witness :
    ∃ d n : List Char, d.length = 4 ∧ (∀ c ∈ d, isAsciiLetter c = true) ∧
      n.length = 4 ∧ (∀ c ∈ n, c.isDigit = true) ∧
      getBaseCourseCode (some "see math 1400!") =
        String.mk (d.map Char.toUpper) ++ "-" ++ String.mk n :=
  (getBaseCourseCode_tiers "see math 1400!").1
    ⟨['s', 'e', 'e', ' '], ['m', 'a', 't', 'h'], [' '], ['1', '4', '0', '0'], ['!'],
      by decide, by decide, by decide, by decide, by decide, by decide⟩

/-- C4 counterexample: "CIS 1200" contains only three letters before the
digits, so the regex tier does not apply; the cleaned string "CIS1200" has
seven characters and the overlapping [0:4]-[3:7] split produces
"CIS1-1200", not "CIS-1200".  The same holds for "cis1200" and
"CIS-1200". -/
theorem getBaseCourseCode_examples_counterexample :
    getBaseCourseCode (some "CIS 1200") = "CIS1-1200" ∧
    getBaseCourseCode (some "cis1200") = "CIS1-1200" ∧
    getBaseCourseCode (some "CIS-1200") = "CIS1-1200" ∧
    ¬ getBaseCourseCode (some "CIS 1200") = "CIS-1200" := by decide

/-- A row with every cell absent, used to build concrete witnesses. -/
def emptyRow : RawRow :=
  { Course_ID := none, Title := none, base_course_quality := none
    base_instructor_quality := none, base_difficulty := none
    base_work_required := none, Section_ID := none, Meetings_Days := none
    Meetings_Time := none, Term := none, CU := none, Instructor := none
    Instructor_last := none, review_rCourseQuality := none
    review_rInstructorQuality := none, review_rDifficulty := none
    review_rWorkRequired := none }

/-- C7: a row whose raw identifier normalizes to "" is dropped silently:
building with it inserted anywhere yields exactly the catalog built without
it, so it creates no Course and no Section and its other fields have no
effect; the builder is a total function, so the row cannot raise. -/
theorem buildCourseMap_drops_empty_row (pm : List (String × ℚ))
    (pre post : List RawRow) (row : RawRow)
    (h : getBaseCourseCode row.Course_ID = "") :
    buildCourseMap pm (pre ++ row :: post) = buildCourseMap pm (pre ++ post) := by
  unfold buildCourseMap
  rw [List.foldl_append, List.foldl_append, List.foldl_cons]
  have hstep : processRow pm (List.foldl (processRow pm) [] pre) row
      = List.foldl (processRow pm) [] pre := by
    unfold processRow
    rw [h]
    simp
  rw [hstep]

/-- Witness for C7: a punctuation-only identifier cleans to "" and the row
is dropped. -/
theorem buildCourseMap_drops_empty_row_witness :
    buildCourseMap [] [{ emptyRow with Course_ID := some "MATH 1400" },
        { emptyRow with Course_ID := some "@#!", Title := some "Ghost" }]
      = buildCourseMap [] [{ emptyRow with Course_ID := some "MATH 1400" }] :=
  buildCourseMap_drops_empty_row [] [{ emptyRow with Course_ID := some "MATH 1400" }]
    [] { emptyRow with Course_ID := some "@#!", Title := some "Ghost" } (by decide)

/-- C6: a rating field of the course created on first sight of a code is
null exactly when the source cell is absent or empty (falsy), and is the
parsed float when the cell is present and non-empty — so a textual "0"
parses to the rating 0 while an absent cell stays null; the course price is
the price-map entry for the code under JS (x || 0), so a missing entry
gives 0; and a price row whose Average_Price cell does not parse stores 0.
All functions involved are total: no malformed field raises. -/
theorem courseRatings_price_spec :
    (∀ f, ratingOf f = none ↔ (f = none ∨ f = some "")) ∧
    (∀ s : String, s ≠ "" → ratingOf (some s) = some (parseFloatStr s)) ∧
    ratingOf (some "0") = some (JNum.val 0) ∧
    (∀ pm code row,
      (mkCourse pm code row).course_rating = ratingOf row.base_course_quality ∧
      (mkCourse pm code row).instructor_rating = ratingOf row.base_instructor_quality ∧
      (mkCourse pm code row).difficulty_rating = ratingOf row.base_difficulty ∧
      (mkCourse pm code row).work_rating = ratingOf row.base_work_required) ∧
    (∀ pm code row, pm.lookup code = none → (mkCourse pm code row).Average_Price = 0) ∧
    (∀ pm code row q, pm.lookup code = some q →
      (mkCourse pm code row).Average_Price = (if q = 0 then 0 else q)) ∧
    (∀ r : PriceRow, parseFloatOpt r.Average_Price = JNum.nan → priceEntryVal r = 0) := by
  refine ⟨?_, ?_, ?_, ?_, ?_, ?_, ?_⟩
  · intro f
    match f with
    | none => simp [ratingOf, truthy]
    | some s => by_cases h : s = "" <;> simp [ratingOf, truthy, h]
  · intro s h
    simp [ratingOf, truthy, h, parseFloatOpt]
  · have h : ratingOf (some "0") = some (parseFloatStr "0") := by
      simp [ratingOf, truthy, parseFloatOpt]
    rw [h]
    have h2 : parseFloatStr "0" = JNum.val (1 * ((digitsToNat ['0'] : Nat) : ℚ)) := rfl
    rw [h2, show digitsToNat ['0'] = 0 from rfl]
    norm_num
  · intro pm code row
    exact ⟨rfl, rfl, rfl, rfl⟩
  · intro pm code row h
    simp [mkCourse, priceOr, h]
  · intro pm code row q h
    simp [mkCourse, priceOr, h]
  · intro r h
    simp [priceEntryVal, jnumOr, h]

/-- Witness for C6 at concrete inputs. -/
theorem courseRatings_price_spec_witness :
    ratingOf (some "3.5") = some (parseFloatStr "3.5") ∧
    (mkCourse [] "X" emptyRow).Average_Price = 0 ∧
    (mkCourse [("X", 7)] "X" emptyRow).Average_Price = 7 ∧
    priceEntryVal { Course_ID := some "X", Average_Price := some "oops" } = 0 := by
  refine ⟨courseRatings_price_spec.2.1 "3.5" (by decide), ?_, ?_, ?_⟩
  · exact courseRatings_price_spec.2.2.2.2.1 [] "X" emptyRow rfl
  · rw [courseRatings_price_spec.2.2.2.2.2.1 [("X", 7)] "X" emptyRow 7 rfl]
    norm_num
  · refine courseRatings_price_spec.2.2.2.2.2.2 _ ?_
    simp [parseFloatOpt, parseFloatStr, parseDecCore]

/-- Looking up the updated key of a JS-object association list gives the
transformed value; other keys are untouched. -/
theorem lookup_updateKey (m : List (String × α)) (k : String) (f : α → α) :
    (updateKey m k f).lookup k = (m.lookup k).map f := by
  induction m with
  | nil => rfl
  | cons p m ih =>
    obtain ⟨k2, v⟩ := p
    simp only [updateKey] at ih ⊢
    rw [List.map_cons]
    by_cases h : (k2 == k) = true
    · rw [if_pos h]
      have hk : (k == k2) = true := by rw [beq_iff_eq] at h ⊢; exact h.symm
      rw [List.lookup_cons, List.lookup_cons]
      simp only [hk]
      rfl
    · rw [if_neg h]
      rw [Bool.not_eq_true] at h
      have hk : (k == k2) = false := by
        rw [beq_eq_false_iff_ne] at h ⊢
        exact fun he => h he.symm
      rw [List.lookup_cons, List.lookup_cons]
      simp only [hk]
      exact ih

/-- C10: once a course exists in the accumulator, a further row with the
same code leaves the course's code, Title, four ratings and Average_Price
unchanged; and when that row carries a section id already present in the
course, the section's Session_ID, Meetings, Days, Time, Term and Credits
are unchanged and its instructor list grows by exactly the one instructor
record built from the row. -/
theorem processRow_frame (pm : List (String × ℚ)) (acc : List (String × CourseB))
    (row : RawRow) (code : String) (C : CourseB)
    (hcode : getBaseCourseCode row.Course_ID = code) (hne : code ≠ "")
    (hC : acc.lookup code = some C) :
    ∃ C2, (processRow pm acc row).lookup code = some C2 ∧
      C2.Course_Code = C.Course_Code ∧ C2.Title = C.Title ∧
      C2.course_rating = C.course_rating ∧
      C2.instructor_rating = C.instructor_rating ∧
      C2.difficulty_rating = C.difficulty_rating ∧
      C2.work_rating = C.work_rating ∧
      C2.Average_Price = C.Average_Price ∧
      (truthy row.Section_ID = false → C2 = C) ∧
      (∀ S, truthy row.Section_ID = true →
        C.sections.lookup (orEmpty row.Section_ID) = some S →
        ∃ S2, C2.sections.lookup (orEmpty row.Section_ID) = some S2 ∧
          S2.Session_ID = S.Session_ID ∧ S2.Meetings = S.Meetings ∧
          S2.Days = S.Days ∧ S2.Time = S.Time ∧ S2.Term = S.Term ∧
          S2.Credits = S.Credits ∧
          S2.instructors = S.instructors ++ [mkInstructor row]) := by
  unfold processRow
  rw [hcode]
  rw [if_neg (by simpa [beq_iff_eq] using hne)]
  simp only [hC]
  cases ht : truthy row.Section_ID with
  | false =>
    simp only [Bool.false_eq_true, if_false]
    exact ⟨C, hC, rfl, rfl, rfl, rfl, rfl, rfl, rfl, fun _ => rfl,
      fun S h1 _ => absurd h1 (by simp [ht])⟩
  | true =>
    simp only [if_true, lookup_updateKey, hC, Option.map_some']
    refine ⟨_, rfl, rfl, rfl, rfl, rfl, rfl, rfl, rfl, ?_, ?_⟩
    · intro hfalse
      exact nomatch hfalse
    · intro S h1 hS
      simp only [hS, lookup_updateKey, Option.map_some']
      exact ⟨_, rfl, rfl, rfl, rfl, rfl, rfl, rfl, rfl⟩

/-- A sample accumulated course used by the C10 witness. -/
def sampleCourse : CourseB :=
  { Course_Code := "MATH-1400", Title := some "Calc", course_rating := none,
    instructor_rating := none, difficulty_rating := none, work_rating := none,
    Average_Price := 0,
    sections := [("001",
      { Session_ID := "001", Meetings := "MWF 9:00am-10:00am", Days := some "MWF",
        Time := some "9:00am-10:00am", Term := some "Full", Credits := some "1",
        instructors := [] })] }

/-- A later row bearing the same code and section id, with different other
fields, used by the C10 witness. -/
def sampleRow2 : RawRow :=
  { emptyRow with
    Course_ID := some "MATH-1400"
    Title := some "Other title"
    base_course_quality := some "1.0"
    Section_ID := some "001"
    Meetings_Days := some "TR"
    Term := some "Q1"
    Instructor_last := some "Kolmogorov" }

/-- Witness for C10 at a concrete accumulator and row. -/
theorem processRow_frame_witness :
    ∃ C2, (processRow [] [("MATH-1400", sampleCourse)] sampleRow2).lookup
        "MATH-1400" = some C2 ∧
      C2.Course_Code = sampleCourse.Course_Code ∧ C2.Title = sampleCourse.Title ∧
      C2.course_rating = sampleCourse.course_rating ∧
      C2.instructor_rating = sampleCourse.instructor_rating ∧
      C2.difficulty_rating = sampleCourse.difficulty_rating ∧
      C2.work_rating = sampleCourse.work_rating ∧
      C2.Average_Price = sampleCourse.Average_Price ∧
      (truthy sampleRow2.Section_ID = false → C2 = sampleCourse) ∧
      (∀ S, truthy sampleRow2.Section_ID = true →
        sampleCourse.sections.lookup (orEmpty sampleRow2.Section_ID) = some S →
        ∃ S2, C2.sections.lookup (orEmpty sampleRow2.Section_ID) = some S2 ∧
          S2.Session_ID = S.Session_ID ∧ S2.Meetings = S.Meetings ∧
          S2.Days = S.Days ∧ S2.Time = S.Time ∧ S2.Term = S.Term ∧
          S2.Credits = S.Credits ∧
          S2.instructors = S.instructors ++ [mkInstructor sampleRow2]) :=
  processRow_frame [] [("MATH-1400", sampleCourse)] sampleRow2 "MATH-1400"
    sampleCourse (by decide) (by decide) rfl

/-- Membership in the index pairs enumerated by the nested conflict loops. -/
theorem mem_allPairs {n i j : Nat} : (i, j) ∈ allPairs n ↔ i < j ∧ j < n := by
  simp only [allPairs, List.mem_flatMap, List.mem_map, List.mem_filter,
    List.mem_range, Prod.mk.injEq, decide_eq_true_eq]
  constructor
  · rintro ⟨a, ha, b, ⟨hb, hab⟩, rfl, rfl⟩
    exact ⟨hab, hb⟩
  · rintro ⟨hij, hj⟩
    exact ⟨i, lt_trans hij hj, j, ⟨hj, hij⟩, rfl, rfl⟩

/-- The accumulated flag function after folding over a pair list. -/
theorem conflictFold_spec (l : List SelSection) (ps : List (Nat × Nat))
    (f : Nat → Bool) (k : Nat) :
    (ps.foldl
      (fun f p =>
        if checkConflict (nthSel l p.1) (nthSel l p.2) then
          fun k2 => f k2 || k2 == p.1 || k2 == p.2
        else f)
      f) k
    = (f k || ps.any fun p =>
        checkConflict (nthSel l p.1) (nthSel l p.2) && (k == p.1 || k == p.2)) := by
  induction ps generalizing f with
  | nil => simp
  | cons p ps ih =>
    rw [List.foldl_cons, List.any_cons]
    by_cases h : checkConflict (nthSel l p.1) (nthSel l p.2) = true
    · rw [if_pos h, ih]
      simp [h, Bool.or_assoc]
    · rw [if_neg h, ih]
      rw [Bool.not_eq_true] at h
      simp [h]

/-- The double loop flags index k exactly when an enumerated pair containing
k conflicts. -/
theorem conflictFlag_iff (l : List SelSection) (k : Nat) :
    conflictFlag l k = true ↔
      ∃ i j, (i, j) ∈ allPairs l.length ∧
        checkConflict (nthSel l i) (nthSel l j) = true ∧ (k = i ∨ k = j) := by
  unfold conflictFlag
  rw [conflictFold_spec]
  simp only [Bool.false_or, List.any_eq_true, Bool.and_eq_true, Bool.or_eq_true,
    beq_iff_eq, Prod.exists]

/-- C2: checkConflict is symmetric, and the pairwise double loop flags a
section exactly when it conflicts with at least one other (different-index)
section of the selection list, independently of pair orientation. -/
theorem checkConflict_symm_flags :
    (∀ A B, checkConflict A B = checkConflict B A) ∧
    (∀ (l : List SelSection) (k : Nat), k < l.length →
      (conflictFlag l k = true ↔
        ∃ j, j < l.length ∧ j ≠ k ∧
          checkConflict (nthSel l k) (nthSel l j) = true)) := by
  have hsymm : ∀ A B, checkConflict A B = checkConflict B A := by
    intro A B
    rw [Bool.eq_iff_iff, checkConflict_iff, checkConflict_iff]
    constructor
    · rintro ⟨h1, h2, h3, h4, ⟨c, hc1, hc2⟩, h5, h6⟩
      exact ⟨h3, h4, h1, h2, ⟨c, hc2, hc1⟩, h6, h5⟩
    · rintro ⟨h1, h2, h3, h4, ⟨c, hc1, hc2⟩, h5, h6⟩
      exact ⟨h3, h4, h1, h2, ⟨c, hc2, hc1⟩, h6, h5⟩
  refine ⟨hsymm, ?_⟩
  intro l k hk
  rw [conflictFlag_iff]
  constructor
  · rintro ⟨i, j, hmem, hcf, hk2⟩
    rw [mem_allPairs] at hmem
    obtain ⟨hij, hjn⟩ := hmem
    rcases hk2 with rfl | rfl
    · exact ⟨j, hjn, by omega, hcf⟩
    · exact ⟨i, by omega, by omega, by rw [hsymm]; exact hcf⟩
  · rintro ⟨j, hjn, hjk, hcf⟩
    by_cases hlt : k < j
    · exact ⟨k, j, mem_allPairs.mpr ⟨hlt, hjn⟩, hcf, Or.inl rfl⟩
    · have hlt2 : j < k := by omega
      exact ⟨j, k, mem_allPairs.mpr ⟨hlt2, hk⟩, by rw [hsymm]; exact hcf,
        Or.inr rfl⟩

/-- Two overlapping Monday sections used by the C2 witness. -/
def mondayNine : SelSection :=
  { dfltSection with Days := some "MWF", Time := some "9:00am-10:00am" }

/-- The second overlapping section for the C2 witness. -/
def mondayHalfPastNine : SelSection :=
  { dfltSection with Days := some "M", Time := some "9:30am-10:30am" }

/-- Witness for C2: in a two-element selection the first element is flagged
exactly because it conflicts with the second. -/
theorem checkConflict_symm_flags_witness :
    conflictFlag [mondayNine, mondayHalfPastNine] 0 = true :=
  (checkConflict_symm_flags.2 [mondayNine, mondayHalfPastNine] 0 (by decide)).mpr
    ⟨1, by decide, by decide, by decide⟩

/-- The price-total fold, started from an arbitrary accumulator. -/
theorem totalOf_eq_aux (l : List SelSection) (a : ℚ) :
    l.foldl (fun sum s => if s.isConflicting then sum else sum + s.Price) a
      = a + ((l.filter fun s => !s.isConflicting).map SelSection.Price).sum := by
  induction l generalizing a with
  | nil => simp
  | cons s l ih =>
    rw [List.foldl_cons]
    cases hs : s.isConflicting
    · rw [if_neg (by simp [hs]), ih, List.filter_cons]
      simp [hs, add_assoc]
    · rw [if_pos (by simp [hs]), ih, List.filter_cons]
      simp [hs]

/-- Reindexing a list through range and getD is the identity. -/
theorem range_map_getD (l : List SelSection) (f : SelSection → α) :
    ((List.range l.length).map fun i => f (nthSel l i)) = l.map f := by
  induction l with
  | nil => rfl
  | cons s l ih =>
    rw [List.length_cons, List.range_succ_eq_map, List.map_cons, List.map_map]
    refine congrArg₂ List.cons rfl ?_
    have hcomp : ((fun i => f (nthSel (s :: l) i)) ∘ Nat.succ)
        = fun i => f (nthSel l i) := by
      funext i
      simp [nthSel]
    rw [hcomp, ih]

/-- Conflict marking changes nothing but the flag. -/
theorem markConflicts_clearFlag (l : List SelSection) :
    (markConflicts l).map clearFlag = l.map clearFlag := by
  unfold markConflicts
  rw [List.map_map]
  have hcomp : (clearFlag ∘ fun i =>
      { nthSel l i with isConflicting := conflictFlag l i })
      = fun i => clearFlag (nthSel l i) := by
    funext i
    simp [clearFlag]
  rw [hcomp, range_map_getD]

/-- Mapping a function that fixes every member is the identity. -/
theorem map_id_of_forall {l : List α} {f : α → α} (h : ∀ x ∈ l, f x = x) :
    l.map f = l := by
  induction l with
  | nil => rfl
  | cons a l ih =>
    rw [List.map_cons, h a (by simp), ih fun x hx => h x (by simp [hx])]

/-- The base selection list carries no conflict flags. -/
theorem selectedBase_clearFlag (courses : List Course) (sel : String → Bool) :
    (selectedBase courses sel).map clearFlag = selectedBase courses sel := by
  refine map_id_of_forall ?_
  intro x hx
  simp only [selectedBase, List.mem_flatMap, List.mem_map, List.mem_filter]
    at hx
  obtain ⟨c, _, s, _, rfl⟩ := hx
  rfl

/-- A bare course with one section, for the spec's price-exclusion example. -/
def exampleCourse (code : String) (p : ℚ) (sid d t : String) : Course :=
  { Course_Code := code, Title := none, course_rating := none,
    instructor_rating := none, difficulty_rating := none, work_rating := none,
    Average_Price := p, Terms := "", Credits := "",
    sections := [
      { Session_ID := sid, Meetings := "", Days := some d,
        Time := some t, Term := some "Full", Credits := none,
        instructors := [] }] }

/-- The three courses of the spec's price-exclusion example: prices 100, 200
and 300, with the first two sections overlapping on Monday morning. -/
def exampleCourses : List Course :=
  [exampleCourse "AAAA-0001" 100 "1" "MWF" "9:00am-10:00am",
   exampleCourse "BBBB-0002" 200 "2" "M" "9:30am-10:30am",
   exampleCourse "CCCC-0003" 300 "3" "T" "9:00am-10:00am"]

/-- C3: the computed total is the sum of the prices of the selected sections
that are not flagged conflicting, while the selection list still contains
every selected section (conflict marking changes only the flag); and the
spec's example: three selected sections priced 100, 200 and 300 with the
first two conflicting give a total of 300 with all three entries present. -/
theorem totalPrice_spec :
    (∀ (courses : List Course) (sel : String → Bool),
      totalPrice courses sel =
        (((selectedList courses sel).filter fun s => !s.isConflicting).map
          SelSection.Price).sum) ∧
    (∀ (courses : List Course) (sel : String → Bool),
      (selectedList courses sel).map clearFlag = selectedBase courses sel) ∧
    totalPrice exampleCourses (fun _ => true) = 300 ∧
    (selectedList exampleCourses (fun _ => true)).map
      (fun s => (s.isConflicting, s.Price))
      = [(true, 100), (true, 200), (false, 300)] := by
  have h1 : ∀ (courses : List Course) (sel : String → Bool),
      totalPrice courses sel =
        (((selectedList courses sel).filter fun s => !s.isConflicting).map
          SelSection.Price).sum := by
    intro courses sel
    unfold totalPrice totalOf
    rw [totalOf_eq_aux]
    simp
  refine ⟨h1, ?_, ?_, ?_⟩
  · intro courses sel
    unfold selectedList
    rw [markConflicts_clearFlag, selectedBase_clearFlag]
  · rw [h1]
    have hfil : ((selectedList exampleCourses (fun _ => true)).filter
        fun s => !s.isConflicting).map SelSection.Price = [300] := rfl
    rw [hfil]
    norm_num
  · rfl

/-- Filtering then flatMapping equals flatMapping the guarded body. -/
theorem calendarEvents_flatMap (view : CalView) (l : List SelSection) :
    calendarEvents view l = l.flatMap (sectionEventsIf view) := by
  unfold calendarEvents sectionEventsIf
  induction l with
  | nil => rfl
  | cons s l ih =>
    rw [List.filter_cons, List.flatMap_cons]
    by_cases h : eligibleSection view s = true
    · rw [if_pos h, if_pos h, List.flatMap_cons, ih]
    · rw [if_neg h, if_neg h, ih]
      rfl

/-- C5 (amended): the events of the selection list are the concatenation of
each section's events; a section contributes an event iff it passes the
eligibility filter (present time and days, not conflicting, term in the
scope's term set) AND additionally its time splits on a hyphen into two
non-empty parts and at least one of its day letters is a weekday letter;
the scope term sets are Overall = Full/Q1/Q2, Q1 = Full/Q1, Q2 = Full/Q2,
so a Full-term section is in scope under all three scopes and a Q1-only
section exactly under Overall and Q1. -/
theorem calendarEvents_spec :
    (∀ view l, calendarEvents view l = l.flatMap (sectionEventsIf view)) ∧
    (∀ view s, eligibleSection view s = true ↔
      (truthy s.Time = true ∧ truthy s.Days = true ∧ s.isConflicting = false ∧
        termIncluded view s.Term = true)) ∧
    (∀ view s, sectionEventsIf view s ≠ [] ↔
      (eligibleSection view s = true ∧
        (jsSplit (orEmpty s.Time) '-').getD 0 "" ≠ "" ∧
        (jsSplit (orEmpty s.Time) '-').getD 1 "" ≠ "" ∧
        (orEmpty s.Days).data.filterMap dayNum ≠ [])) ∧
    (∀ view, "Full" ∈ termsToShow view) ∧
    (∀ view, ("Q1" ∈ termsToShow view ↔
      (view = CalView.Overall ∨ view = CalView.Q1))) ∧
    (∀ view, ("Q2" ∈ termsToShow view ↔
      (view = CalView.Overall ∨ view = CalView.Q2))) := by
  refine ⟨calendarEvents_flatMap, ?_, ?_, ?_, ?_, ?_⟩
  · intro view s
    simp [eligibleSection, Bool.and_eq_true, and_assoc]
  · intro view s
    unfold sectionEventsIf
    by_cases h : eligibleSection view s = true
    · rw [if_pos h]
      unfold sectionEvents
      by_cases h1 : (jsSplit (orEmpty s.Time) '-').getD 0 "" = ""
      · simp [h1, h]
      · by_cases h2 : (jsSplit (orEmpty s.Time) '-').getD 1 "" = ""
        · simp [h1, h2, h]
        · by_cases h3 : (orEmpty s.Days).data.filterMap dayNum = []
          · simp [h1, h2, h3, h, List.isEmpty_iff]
          · simp [h1, h2, h3, h, List.isEmpty_iff]
    · rw [if_neg h]
      simp [h]
  · intro view; cases view <;> simp [termsToShow]
  · intro view; cases view <;> simp [termsToShow]
  · intro view; cases view <;> simp [termsToShow]

/-- A selected Saturday-only section: present time and days, Full term, not
conflicting. -/
def saturdaySection : SelSection :=
  { dfltSection with
    Days := some "S"
    Time := some "9:00am-10:00am"
    Term := some "Full" }

/-- C5 counterexample: the Saturday-only section passes the eligibility
filter under the Overall scope (present time and days, not conflicting,
term Full in the scope's term set) yet the calendar produces no event for
it, because no day letter maps to a weekday ordinal — refuting the claim
that eligibility alone is equivalent to producing events. -/
theorem calendarEvents_weekend_counterexample :
    eligibleSection CalView.Overall saturdaySection = true ∧
    calendarEvents CalView.Overall [saturdaySection] = [] := by
  constructor
  · decide
  · rfl

/-- Stable insertion permutes: the result holds the new element and the old
list. -/
theorem insertStable_perm (c : α → α → Int) (x : α) (l : List α) :
    (insertStable c x l).Perm (x :: l) := by
  induction l with
  | nil => exact List.Perm.refl _
  | cons y ys ih =>
    rw [insertStable]
    by_cases h : c x y ≤ 0
    · rw [if_pos h]
    · rw [if_neg h]
      exact (ih.cons y).trans (List.Perm.swap x y ys)

/-- The modelled Array.prototype.sort permutes its input. -/
theorem jsSort_perm (c : α → α → Int) (l : List α) : (jsSort c l).Perm l := by
  induction l with
  | nil => exact List.Perm.refl _
  | cons a l ih => exact (insertStable_perm c a (jsSort c l)).trans (ih.cons a)

/-- Prepending preserves relative order. -/
theorem before_cons (z : α) {x y : α} {l : List α} (h : Before x y l) :
    Before x y (z :: l) := by
  obtain ⟨l1, l2, l3, rfl⟩ := h
  exact ⟨z :: l1, l2, l3, rfl⟩

/-- An element before a later member of the list. -/
theorem before_of_mem (x : α) {y : α} {l : List α} (h : y ∈ l) :
    Before x y (x :: l) := by
  obtain ⟨s, t, rfl⟩ := List.append_of_mem h
  exact ⟨[], s, t, rfl⟩

/-- Inserting a further element cannot swap an existing ordered pair. -/
theorem before_insertStable (c : α → α → Int) (a : α) {x y : α} {l : List α}
    (h : Before x y l) : Before x y (insertStable c a l) := by
  induction l with
  | nil =>
    obtain ⟨l1, l2, l3, hdec⟩ := h
    exact absurd (congrArg List.length hdec) (by simp; omega)
  | cons z rest ih =>
    rw [insertStable]
    by_cases hc : c a z ≤ 0
    · rw [if_pos hc]
      exact before_cons a h
    · rw [if_neg hc]
      obtain ⟨l1, l2, l3, hdec⟩ := h
      cases l1 with
      | nil =>
        injection hdec with h1 h2
        subst h1
        have hy : y ∈ rest := by
          rw [h2]
          exact List.mem_append_right _ (List.mem_cons_self _ _)
        have hy2 : y ∈ insertStable c a rest :=
          ((insertStable_perm c a rest).mem_iff).mpr (List.mem_cons_of_mem a hy)
        exact before_of_mem _ hy2
      | cons w l1b =>
        injection hdec with h1 h2
        subst h1
        exact before_cons _ (ih ⟨l1b, l2, l3, h2⟩)

/-- Inserting x into a list containing y places x before y whenever the
comparator does not put x strictly after y (ties included). -/
theorem before_insert_self (c : α → α → Int) {x y : α} {l : List α}
    (hxy : c x y ≤ 0) (hy : y ∈ l) : Before x y (insertStable c x l) := by
  induction l with
  | nil => cases hy
  | cons z rest ih =>
    rw [insertStable]
    by_cases hc : c x z ≤ 0
    · rw [if_pos hc]
      exact before_of_mem x hy
    · rw [if_neg hc]
      rcases List.mem_cons.mp hy with rfl | hy2
      · exact absurd hxy hc
      · exact before_cons z (ih hy2)

/-- Stability of the modelled sort: an earlier element that the comparator
does not put strictly after a later one stays before it. -/
theorem jsSort_stable (c : α → α → Int) (x y : α) (l1 l2 l3 : List α)
    (hxy : c x y ≤ 0) :
    Before x y (jsSort c (l1 ++ x :: l2 ++ y :: l3)) := by
  induction l1 with
  | nil =>
    rw [List.nil_append]
    simp only [jsSort]
    refine before_insert_self c hxy ?_
    refine ((jsSort_perm c _).mem_iff).mpr ?_
    exact List.mem_append_right _ (List.mem_cons_self _ _)
  | cons a l1b ih =>
    rw [List.cons_append]
    simp only [jsSort]
    exact before_insertStable c a ih

/-- C8: sorting the filtered list by any column key and direction returns a
permutation of it (the input list value itself is untouched — the source
sorts a copy), and the sort is stable: any two courses whose key values
compare equal under the JS comparator (comparator value 0) keep their
relative order from the pre-sort sequence. -/
theorem sortCourses_stable :
    (∀ key dir (l : List Course), (sortCourses key dir l).Perm l) ∧
    (∀ key dir (x y : Course) (l1 l2 l3 : List Course),
      cmpCourses key dir x y = 0 →
      Before x y (sortCourses key dir (l1 ++ x :: l2 ++ y :: l3))) := by
  constructor
  · intro key dir l
    exact jsSort_perm _ l
  · intro key dir x y l1 l2 l3 h
    exact jsSort_stable _ x y l1 l2 l3 (by rw [h])

/-- A course with only a Terms value, for the C8 witness. -/
def tieCourse (code terms : String) : Course :=
  { Course_Code := code, Title := none, course_rating := none,
    instructor_rating := none, difficulty_rating := none, work_rating := none,
    Average_Price := 0, Terms := terms, Credits := "", sections := [] }

/-- Witness for C8: two courses tied on the Terms column keep their order. -/
theorem sortCourses_stable_witness :
    Before (tieCourse "AAAA-0001" "Full") (tieCourse "BBBB-0002" "Full")
      (sortCourses SortKey.terms SortDir.ascending
        [tieCourse "AAAA-0001" "Full", tieCourse "BBBB-0002" "Full"]) :=
  sortCourses_stable.2 SortKey.terms SortDir.ascending
    (tieCourse "AAAA-0001" "Full") (tieCourse "BBBB-0002" "Full") [] [] []
    (by decide)

/-- Witness for C1: two Monday-morning sections overlap, through the
characterization. -/
theorem checkConflict_spec_witness :
    checkConflict mondayNine mondayHalfPastNine = true :=
  (checkConflict_spec mondayNine mondayHalfPastNine).mpr
    ⟨by decide, by decide, by decide, by decide, ⟨'M', by decide, by decide⟩,
      by decide, by decide⟩

/-- Witness for C3: the total formula instantiated at the example data. -/
theorem totalPrice_spec_witness :
    totalPrice exampleCourses (fun _ => true) =
      (((selectedList exampleCourses (fun _ => true)).filter
        fun s => !s.isConflicting).map SelSection.Price).sum :=
  totalPrice_spec.1 exampleCourses (fun _ => true)

/-- A selected Friday section in the Full term, for the C5 witness. -/
def fridaySection : SelSection :=
  { dfltSection with
    Days := some "F"
    Time := some "9:00am-10:00am"
    Term := some "Full" }

/-- Witness for C5: an eligible weekday section with a well-formed time
range produces at least one event. -/
theorem calendarEvents_spec_witness :
    sectionEventsIf CalView.Overall fridaySection ≠ [] :=
  (calendarEvents_spec.2.2.1 CalView.Overall fridaySection).mpr
    ⟨by decide, by decide, by decide, by decide⟩

end CourseMatch
